import Mathlib

/-!
Shallow embedding of the data-loading and batching pipeline of
pflow/data/text_mel_datamodule.py, together with proofs about its parsing,
filtering, padding, truncation and collation behaviour.

Tensors are modelled as nested lists over ℚ (mel values, waveform samples)
and ℤ (symbol ids, codec codes); lengths are ℕ.  External collaborators
(the mel-spectrogram transform, the text cleaner/encoder, the neural codec,
the audio loader) are abstract function parameters, as the spec treats them
as black boxes.  Helpers imported by the source from pflow.utils that are
not part of src/ (fix_len_compatibility, intersperse, normalize) are
modelled from the spec and marked as such.
-/

namespace PFlow

/-- A parsed datapoint, the dictionary returned by
TextMelDataset.get_datapoint: encoded symbol ids x, the normalized
mel-spectrogram y given as n_feats rows over time, the optional speaker id,
and the raw single-channel waveform. -/
structure Datapoint where
  x : List Int
  y : List (List ℚ)
  spk : Option Int
  wav : List ℚ
  deriving DecidableEq, Inhabited

/-- The batch dictionary returned by TextMelBatchCollate.__call__.
Tensors are nested lists; the waveform channel dimension of size one is
elided.  Optional fields are none exactly when the source stores None. -/
structure Batch where
  x : List (List Int)
  x_lengths : List Nat
  y : List (List (List ℚ))
  y_lengths : List Nat
  spks : Option (List (Option Int))
  wav : List (List ℚ)
  wav_lengths : List Nat
  codes : Option (List (List Int))
  codes_lengths : Option (List Nat)
  prompt_spec : List (List (List ℚ))
  prompt_lengths : List Nat
  prompt_codes : Option (List (List Int))
  prompt_codes_lengths : Option (List Nat)
  deriving DecidableEq

/-- Modelled from the spec: fix_len_compatibility from pflow.utils.model
(imported by the source but not part of src/).  It rounds a mel length up
to the nearest multiple of the fixed compatibility factor, via
ceil(len / factor) * factor when not already a multiple, else unchanged. -/
def fix_len_compatibility (factor length : Nat) : Nat :=
  if length % factor = 0 then length else (length / factor + 1) * factor

/-- Modelled from the spec: intersperse from pflow.utils.utils (imported by
the source but not part of src/).  It interleaves item between every
adjacent pair of symbols, including before the first and after the last. -/
def intersperse (lst : List Int) (item : Int) : List Int :=
  match lst with
  | [] => [item]
  | x :: xs => item :: x :: intersperse xs item

/-- Modelled from the spec: normalize from pflow.utils.model (imported by
the source but not part of src/): value mapped to (value - mean) / std. -/
def normalize (x mu std : ℚ) : ℚ := (x - mu) / std

/-- TextMelDataset.get_text: encode the raw text through the abstract
text_to_sequence cleaner/encoder, then, when blank-insertion is enabled,
intersperse the reserved blank id 0. -/
def get_text (text_to_sequence : String → List Int) (add_blank : Bool)
    (text : String) : List Int :=
  let text_norm := text_to_sequence text
  if add_blank then intersperse text_norm 0 else text_norm

/-- TextMelDataset.get_mel: given the output (audio, sr) of the audio
loader, assert sr equals the configured sample rate (an AssertionError when
it differs), then return the normalized mel together with the waveform.
The mel_spectrogram call and the squeeze are the abstract mel_fn. -/
def get_mel (mel_fn : List ℚ → List (List ℚ)) (sample_rate : Nat)
    (mel_mean mel_std : ℚ) (audio : List ℚ) (sr : Nat) :
    Except String (List (List ℚ) × List ℚ) :=
  if sr = sample_rate then
    Except.ok ((mel_fn audio).map (fun row =>
      row.map (fun v => normalize v mel_mean mel_std)), audio)
  else
    Except.error "AssertionError: sr == self.sample_rate"

/-- The characters of a file split into Python-iteration lines, each line
given without its trailing newline terminator (the source strips every
line anyway).  A terminating final newline does not open an extra line. -/
def splitOnChar (sep : Char) : List Char → List (List Char)
  | [] => [[]]
  | c :: cs =>
    if c = sep then [] :: splitOnChar sep cs
    else
      match splitOnChar sep cs with
      | [] => [[c]]
      | r :: rs => (c :: r) :: rs

/-- The lines of a file as iterated by Python: an empty file has no lines,
and a trailing newline closes the last line rather than opening a new one. -/
def pyLines (content : List Char) : List (List Char) :=
  if content = [] then []
  else if content.getLast? = some '\x0a' then (splitOnChar '\x0a' content).dropLast
  else splitOnChar '\x0a' content

/-- Python str.strip: drop whitespace from both ends of the line. -/
def pyStrip (l : List Char) : List Char :=
  ((l.dropWhile Char.isWhitespace).reverse.dropWhile Char.isWhitespace).reverse

/-- parse_filelist: one record per line of the manifest, obtained by
stripping the line and splitting it on the separator. -/
def parse_filelist (content : List Char) (split_char : Char) :
    List (List (List Char)) :=
  (pyLines content).map (fun line => splitOnChar split_char (pyStrip line))

/-- TextMelDataset.__len__: the length of the stored (shuffled)
filepaths_and_text list. -/
def TextMelDataset_len (filepaths_and_text : List (List (List Char))) : Nat :=
  filepaths_and_text.length

/-- TextMelDataset.__getitem__: return the datapoint at index, but when its
waveform has fewer than 66150 samples, retry at the next index drawn from
the random stream.  The stream of random draws is an explicit oracle; its
exhaustion (none) models the unbounded recursion of the source never
returning. -/
def TextMelDataset_getitem (data : List Datapoint) :
    List Nat → Nat → Option Datapoint
  | [], index =>
    if (data.getD index default).wav.length < 66150 then none
    else some (data.getD index default)
  | r :: rs, index =>
    if (data.getD index default).wav.length < 66150 then
      TextMelDataset_getitem data rs r
    else some (data.getD index default)

/-- item["y"].shape[-1]: the time dimension of a mel, read off its first
row (all rows of a well-formed mel tensor share it). -/
def melTime (y : List (List ℚ)) : Nat := (y.headD []).length

/-- Zero-padding into a row of a zero-initialised tensor of width n:
the row's prefix that fits is copied and the rest of the width stays 0. -/
def padTo {α : Type} [Zero α] (n : Nat) (row : List α) : List α :=
  row.take n ++ List.replicate (n - row.length) 0

/-- y_max_length of TextMelBatchCollate.__call__: the maximum mel time
dimension over the batch, rounded up by fix_len_compatibility. -/
def ymaxOf (factor : Nat) (batch : List Datapoint) : Nat :=
  fix_len_compatibility factor ((batch.map (fun it => melTime it.y)).foldr max 0)

/-- wav_max_length of TextMelBatchCollate.__call__: the source hard-codes
the multiplier 256 (wav_max_length = y_max_length * 256). -/
def wmaxOf (factor : Nat) (batch : List Datapoint) : Nat :=
  ymaxOf factor batch * 256

/-- The per-item waveform truncation of the collator:
item["wav"][:, :wav_max_length] when the waveform is strictly longer than
wav_max_length, the waveform unchanged otherwise. -/
def truncWav (wmax : Nat) (w : List ℚ) : List ℚ :=
  if wmax < w.length then w.take wmax else w

/-- The batch dictionary built by TextMelBatchCollate.__call__ on a
non-empty batch when get_codes is enabled.  Each field follows the source
loop: padded rows, recorded true lengths (post-truncation for waveforms),
speaker ids stacked only when n_spks > 1, codes from the codec applied to
the padded waveform tensor (batched_encodec plus squeeze/transpose is the
abstract codec), codes_lengths as 1 + wav_len // 320. -/
def mkBatch (factor : Nat) (n_spks : Int)
    (codec : List (List ℚ) → List (List Int)) (batch : List Datapoint) :
    Batch :=
  let y_max_length := ymaxOf factor batch
  let wav_max_length := wmaxOf factor batch
  let x_max_length := (batch.map (fun it => it.x.length)).foldr max 0
  let y := batch.map (fun it => it.y.map (padTo y_max_length))
  let x := batch.map (fun it => padTo x_max_length it.x)
  let wav := batch.map (fun it => padTo wav_max_length (truncWav wav_max_length it.wav))
  let y_lengths := batch.map (fun it => melTime it.y)
  let x_lengths := batch.map (fun it => it.x.length)
  let wav_lengths := batch.map (fun it => (truncWav wav_max_length it.wav).length)
  let spks := if 1 < n_spks then some (batch.map (fun it => it.spk)) else none
  let codes := codec wav
  let codes_lengths := wav_lengths.map (fun l => 1 + l / 320)
  { x := x
    x_lengths := x_lengths
    y := y
    y_lengths := y_lengths
    spks := spks
    wav := wav
    wav_lengths := wav_lengths
    codes := some codes
    codes_lengths := some codes_lengths
    prompt_spec := y
    prompt_lengths := y_lengths
    prompt_codes := some codes
    prompt_codes_lengths := some codes_lengths }

/-- TextMelBatchCollate.__call__.  An empty batch makes the Python max()
raise; when get_codes is disabled the returned dictionary references the
local variable codes that was only assigned under the get_codes branch, so
the call raises an UnboundLocalError instead of returning a batch. -/
def collate (factor : Nat) (n_spks : Int) (get_codes : Bool)
    (codec : List (List ℚ) → List (List Int)) (batch : List Datapoint) :
    Except String Batch :=
  if batch.isEmpty then
    Except.error "ValueError: max arg is an empty sequence"
  else if get_codes then
    Except.ok (mkBatch factor n_spks codec batch)
  else
    Except.error "UnboundLocalError: local variable codes referenced before assignment"

/-- A one-item demonstration batch used by concrete witnesses. -/
def demoItem : Datapoint := { x := [1], y := [[0]], spk := some 3, wav := [1] }

/-- A singleton demonstration batch. -/
def demoBatch : List Datapoint := [demoItem]

/-- A fixed deterministic stand-in for the codec. -/
def demoCodec : List (List ℚ) → List (List Int) := fun _ => []

/-! Helper lemmas about lists, padding and the length-compatibility
rounding. -/

/-- getD through map at an in-range index. -/
theorem getD_map_lt {α β : Type} (f : α → β) (d : β) (e : α) :
    ∀ (l : List α) (i : Nat), i < l.length →
      (l.map f).getD i d = f (l.getD i e)
  | a :: l, 0, _ => rfl
  | a :: l, i + 1, h => by
    simpa [List.getD_cons_succ] using getD_map_lt f d e l i (by simpa using h)

/-- getD at an in-range index is a member of the list. -/
theorem getD_mem_of_lt {α : Type} (d : α) :
    ∀ (l : List α) (i : Nat), i < l.length → l.getD i d ∈ l
  | a :: l, 0, _ => List.mem_cons_self a l
  | a :: l, i + 1, h =>
    List.mem_cons_of_mem a (getD_mem_of_lt d l i (by simpa using h))

/-- getD beyond the length of the list yields the default. -/
theorem getD_ge_length {α : Type} (d : α) :
    ∀ (l : List α) (j : Nat), l.length ≤ j → l.getD j d = d
  | [], j, _ => by simp [List.getD]
  | a :: l, j + 1, h => by
    simpa [List.getD_cons_succ] using getD_ge_length d l j (by simpa using h)

/-- getD past the left part of an append reads the right part. -/
theorem getD_append_ge {α : Type} (d : α) :
    ∀ (l r : List α) (j : Nat), l.length ≤ j →
      (l ++ r).getD j d = r.getD (j - l.length) d
  | [], r, j, _ => by simp
  | a :: l, r, j + 1, h => by
    simpa [List.getD_cons_succ] using getD_append_ge d l r j (by simpa using h)

/-- getD on replicate with the replicated value as default. -/
theorem getD_replicate_self {α : Type} (a : α) :
    ∀ (n j : Nat), (List.replicate n a).getD j a = a
  | 0, j => by simp [List.getD]
  | n + 1, 0 => rfl
  | n + 1, j + 1 => by
    simp [List.replicate_succ, List.getD_cons_succ, getD_replicate_self a n j]

/-- take of at least the whole list is the list. -/
theorem take_eq_self_of_le {α : Type} :
    ∀ (l : List α) (n : Nat), l.length ≤ n → l.take n = l
  | [], n, _ => by simp
  | a :: l, n + 1, h => by
    simp [take_eq_self_of_le l n (by simpa using h)]

/-- take of exactly the left part of an append is the left part. -/
theorem take_append_self {α : Type} :
    ∀ (l r : List α), (l ++ r).take l.length = l
  | [], r => rfl
  | a :: l, r => by simp [take_append_self l r]

/-- Mapping a function that fixes every member is the identity. -/
theorem map_eq_self_of_mem {α : Type} (f : α → α) :
    ∀ (l : List α), (∀ a ∈ l, f a = a) → l.map f = l
  | [], _ => rfl
  | a :: l, h => by
    simp [h a (List.mem_cons_self a l),
      map_eq_self_of_mem f l (fun x hx => h x (List.mem_cons_of_mem a hx))]

/-- Every member is bounded by the foldr max over the list. -/
theorem le_foldr_max :
    ∀ (l : List Nat) (a : Nat), a ∈ l → a ≤ l.foldr max 0
  | b :: l, a, h => by
    rcases List.mem_cons.mp h with h1 | h1
    · subst h1; exact le_max_left _ _
    · exact le_trans (le_foldr_max l a h1) (le_max_right _ _)

/-- Interspersing a blank doubles the length plus one. -/
theorem intersperse_length :
    ∀ (l : List Int) (item : Int), (intersperse l item).length = 2 * l.length + 1
  | [], _ => rfl
  | x :: xs, item => by
    simp [intersperse, intersperse_length xs item]
    omega

/-- Every even position of an interspersed sequence holds the blank. -/
theorem intersperse_getD_even :
    ∀ (l : List Int) (item : Int) (j : Nat), j % 2 = 0 →
      j < 2 * l.length + 1 → (intersperse l item).getD j (-1) = item
  | [], item, 0, _, _ => rfl
  | [], item, j + 1, hj, hlt => by
    simp at hlt
  | x :: xs, item, 0, _, _ => rfl
  | x :: xs, item, 1, hj, _ => by omega
  | x :: xs, item, j + 2, hj, hlt => by
    have hlen : (j : Nat) < 2 * xs.length + 1 := by
      simp at hlt
      omega
    simpa [intersperse, List.getD_cons_succ] using
      intersperse_getD_even xs item j (by omega) hlen

/-- Every odd position of an interspersed sequence holds the corresponding
original symbol. -/
theorem intersperse_getD_odd :
    ∀ (l : List Int) (item : Int) (j : Nat), j < l.length →
      (intersperse l item).getD (2 * j + 1) (-1) = l.getD j (-1)
  | x :: xs, item, 0, _ => rfl
  | x :: xs, item, j + 1, hj => by
    have h1 : 2 * (j + 1) + 1 = (2 * j + 1) + 2 := by omega
    rw [h1]
    simpa [intersperse, List.getD_cons_succ] using
      intersperse_getD_odd xs item j (by simpa using hj)

/-- The length-compatibility rounding always lands on a multiple of the
factor. -/
theorem fix_len_mod (factor n : Nat) :
    fix_len_compatibility factor n % factor = 0 := by
  unfold fix_len_compatibility
  split
  · assumption
  · exact Nat.mul_mod_left _ _

/-- The length-compatibility rounding never shrinks a length. -/
theorem le_fix_len (factor n : Nat) (hf : 0 < factor) :
    n ≤ fix_len_compatibility factor n := by
  unfold fix_len_compatibility
  split
  · exact le_refl n
  · calc n = factor * (n / factor) + n % factor := (Nat.div_add_mod n factor).symm
      _ ≤ factor * (n / factor) + factor := by
          have := Nat.mod_lt n hf
          omega
      _ = (n / factor + 1) * factor := by ring

/-- A padded row always has exactly the target width. -/
theorem padTo_length {α : Type} [Zero α] (n : Nat) (row : List α) :
    (padTo n row).length = n := by
  simp [padTo, List.length_take]
  omega

/-- Padding a row that already has the target width is the identity. -/
theorem padTo_eq_self {α : Type} [Zero α] (n : Nat) (row : List α)
    (h : row.length = n) : padTo n row = row := by
  subst h
  simp [padTo, take_eq_self_of_le row row.length (le_refl _)]

/-- The true-length prefix of a padded row is the original row. -/
theorem padTo_take_self {α : Type} [Zero α] (n : Nat) (row : List α)
    (h : row.length ≤ n) : (padTo n row).take row.length = row := by
  rw [padTo, take_eq_self_of_le row n h, take_append_self]

/-- Beyond the true length, a padded row reads zero. -/
theorem padTo_getD_zero {α : Type} [Zero α] (n : Nat) (row : List α)
    (j : Nat) (hj : row.length ≤ j) : (padTo n row).getD j 0 = 0 := by
  have h1 : (row.take n).length ≤ j := by
    simp [List.length_take]
    omega
  rw [padTo, getD_append_ge 0 (row.take n) _ j h1, getD_replicate_self]

/-- The truncated waveform's length is the minimum of the original length
and the padded width. -/
theorem truncWav_length (wmax : Nat) (w : List ℚ) :
    (truncWav wmax w).length = min w.length wmax := by
  unfold truncWav
  split
  · simp [List.length_take]
    omega
  · simp
    omega

/-- The mel time dimension of each batch item is bounded by y_max_length. -/
theorem melTime_le_ymax (factor : Nat) (batch : List Datapoint)
    (it : Datapoint) (hf : 0 < factor) (hmem : it ∈ batch) :
    melTime it.y ≤ ymaxOf factor batch := by
  unfold ymaxOf
  exact le_trans
    (le_foldr_max _ _ (List.mem_map_of_mem (fun it => melTime it.y) hmem))
    (le_fix_len factor _ hf)

/-- Inversion for the collator: a successful collation with codes enabled
is exactly the constructed batch dictionary. -/
theorem collate_ok (factor : Nat) (n_spks : Int)
    (codec : List (List ℚ) → List (List Int)) (batch : List Datapoint)
    (b : Batch) (h : collate factor n_spks true codec batch = Except.ok b) :
    b = mkBatch factor n_spks codec batch := by
  by_cases hb : batch.isEmpty
  · simp [collate, hb] at h
  · simp [collate, hb] at h
    exact h.symm

/-- Field view of the constructed batch: mel tensor rows. -/
theorem mkBatch_y (factor : Nat) (n_spks : Int)
    (codec : List (List ℚ) → List (List Int)) (batch : List Datapoint) :
    (mkBatch factor n_spks codec batch).y =
      batch.map (fun it => it.y.map (padTo (ymaxOf factor batch))) := rfl

/-- Field view of the constructed batch: recorded mel lengths. -/
theorem mkBatch_y_lengths (factor : Nat) (n_spks : Int)
    (codec : List (List ℚ) → List (List Int)) (batch : List Datapoint) :
    (mkBatch factor n_spks codec batch).y_lengths =
      batch.map (fun it => melTime it.y) := rfl

/-- Field view of the constructed batch: waveform tensor rows. -/
theorem mkBatch_wav (factor : Nat) (n_spks : Int)
    (codec : List (List ℚ) → List (List Int)) (batch : List Datapoint) :
    (mkBatch factor n_spks codec batch).wav =
      batch.map (fun it =>
        padTo (wmaxOf factor batch) (truncWav (wmaxOf factor batch) it.wav)) := rfl

/-- Field view of the constructed batch: recorded waveform lengths. -/
theorem mkBatch_wav_lengths (factor : Nat) (n_spks : Int)
    (codec : List (List ℚ) → List (List Int)) (batch : List Datapoint) :
    (mkBatch factor n_spks codec batch).wav_lengths =
      batch.map (fun it => (truncWav (wmaxOf factor batch) it.wav).length) := rfl

/-! Claim theorems. -/

/-- Claim C1 counterexample: with the compatibility factor 2 and the
configured hop_length 512, the collated waveform tensor's last dimension is
y_max_length * 256 (here 512), not y_max_length * hop_length (here 1024):
the source hard-codes the multiplier 256, so the claimed identity fails for
every configured hop_length other than 256. -/
theorem collate_wav_dim_hop_counterexample :
    ∃ b, collate 2 1 true demoCodec demoBatch = Except.ok b ∧
      (b.wav.headD []).length ≠ ymaxOf 2 demoBatch * 512 :=
  ⟨mkBatch 2 1 demoCodec demoBatch, rfl, by
    rw [mkBatch_wav]
    rw [show (demoBatch.map (fun it =>
          padTo (wmaxOf 2 demoBatch) (truncWav (wmaxOf 2 demoBatch) it.wav))).headD [] =
        padTo (wmaxOf 2 demoBatch) (truncWav (wmaxOf 2 demoBatch) demoItem.wav) from rfl]
    rw [padTo_length]
    decide⟩

/-- Claim C1 (amended): for every successfully collated batch, the padded
mel tensor's last dimension is the maximum mel length rounded up by
fix_len_compatibility, hence divisible by the compatibility factor, and the
padded waveform tensor's last dimension is that mel dimension times the
hard-coded 256 (equal to hop_length only when hop_length is 256). -/
theorem collate_padded_dims (factor : Nat) (n_spks : Int)
    (codec : List (List ℚ) → List (List Int)) (batch : List Datapoint)
    (b : Batch) (hok : collate factor n_spks true codec batch = Except.ok b) :
    ymaxOf factor batch % factor = 0 ∧
    (∀ mel ∈ b.y, ∀ row ∈ mel, row.length = ymaxOf factor batch) ∧
    (∀ w ∈ b.wav, w.length = ymaxOf factor batch * 256) := by
  obtain rfl := collate_ok factor n_spks codec batch b hok
  refine ⟨fix_len_mod factor _, ?_, ?_⟩
  · intro mel hmel row hrow
    rw [mkBatch_y] at hmel
    rcases List.mem_map.mp hmel with ⟨it, _, rfl⟩
    rcases List.mem_map.mp hrow with ⟨r, _, rfl⟩
    exact padTo_length _ r
  · intro w hw
    rw [mkBatch_wav] at hw
    rcases List.mem_map.mp hw with ⟨it, _, rfl⟩
    exact padTo_length _ _

/-- Claim C1 witness: the amended dimension facts evaluated on the
demonstration batch with factor 2. -/
theorem collate_padded_dims_witness : ymaxOf 2 demoBatch % 2 = 0 :=
  (collate_padded_dims 2 1 demoCodec demoBatch
    (mkBatch 2 1 demoCodec demoBatch) rfl).1

/-- Claim C3: whenever a dataset access returns a datapoint, that
datapoint's waveform has at least 66150 samples: shorter datapoints are
discarded and the access retries at the next index of the (random) retry
stream, so a short sample is never emitted. -/
theorem getitem_min_wav_length (data : List Datapoint) :
    ∀ (retries : List Nat) (index : Nat) (d : Datapoint),
      TextMelDataset_getitem data retries index = some d →
      66150 ≤ d.wav.length
  | [], index, d, h => by
    unfold TextMelDataset_getitem at h
    split at h
    · exact absurd h (by simp)
    · rename_i hc
      rw [Option.some.injEq] at h
      subst h
      omega
  | r :: rs, index, d, h => by
    unfold TextMelDataset_getitem at h
    split at h
    · exact getitem_min_wav_length data rs r d h
    · rename_i hc
      rw [Option.some.injEq] at h
      subst h
      omega

/-- A datapoint with exactly the minimum acceptable waveform length. -/
def longItem : Datapoint :=
  { x := [], y := [], spk := none, wav := List.replicate 66150 0 }

/-- Claim C3 witness: the returned-sample bound at a concrete dataset whose
single datapoint meets the threshold and is therefore returned as is. -/
theorem getitem_min_wav_length_witness : 66150 ≤ longItem.wav.length :=
  getitem_min_wav_length [longItem] [] 0 longItem (by
    have hlen : longItem.wav.length = 66150 := by
      rw [show longItem.wav = List.replicate 66150 0 from rfl,
        List.length_replicate]
    unfold TextMelDataset_getitem
    rw [show ([longItem].getD 0 default) = longItem from rfl, hlen]
    simp)

/-- Claim C5: with blank-insertion enabled, get_text yields 2*n+1 symbols
for an n-symbol cleaned encoding, with the reserved blank id 0 at every
even position (before, between and after the encoded symbols) and the
original symbols at the odd positions. -/
theorem get_text_blank_interleave (text_to_sequence : String → List Int)
    (text : String) :
    (get_text text_to_sequence true text).length =
      2 * (text_to_sequence text).length + 1 ∧
    (∀ j, j % 2 = 0 → j < 2 * (text_to_sequence text).length + 1 →
      (get_text text_to_sequence true text).getD j (-1) = 0) ∧
    (∀ j, j < (text_to_sequence text).length →
      (get_text text_to_sequence true text).getD (2 * j + 1) (-1) =
        (text_to_sequence text).getD j (-1)) := by
  have hg : get_text text_to_sequence true text =
      intersperse (text_to_sequence text) 0 := rfl
  rw [hg]
  exact ⟨intersperse_length (text_to_sequence text) 0,
    fun j hj hlt => intersperse_getD_even (text_to_sequence text) 0 j hj hlt,
    fun j hj => intersperse_getD_odd (text_to_sequence text) 0 j hj⟩

/-- Claim C5 witness: get_text on a two-symbol encoding has a blank at
position 2 and the second original symbol at position 3. -/
theorem get_text_blank_interleave_witness :
    (get_text (fun _ => [5, 7]) true "ab").getD 2 (-1) = 0 ∧
    (get_text (fun _ => [5, 7]) true "ab").getD (2 * 1 + 1) (-1) =
      ((fun _ : String => [(5 : Int), 7]) "ab").getD 1 (-1) :=
  ⟨(get_text_blank_interleave (fun _ => [5, 7]) "ab").2.1 2 rfl (by decide),
   (get_text_blank_interleave (fun _ => [5, 7]) "ab").2.2 1 (by decide)⟩

/-- Claim C6: the collator's optional-field handling.  Speaker ids are
stacked exactly when n_spks > 1 (none on the singleton-speaker batch, the
stacked list when n_spks = 3), and collation with codes enabled succeeds;
but with code extraction disabled the call does NOT succeed: the returned
dictionary references the local variable codes, assigned only under the
get_codes branch, so the source raises an UnboundLocalError instead of
returning a batch without code fields. -/
theorem collate_optional_fields :
    collate 2 1 false demoCodec demoBatch =
      Except.error "UnboundLocalError: local variable codes referenced before assignment" ∧
    (mkBatch 2 1 demoCodec demoBatch).spks = none ∧
    (mkBatch 2 3 demoCodec demoBatch).spks = some [some 3] ∧
    (mkBatch 2 3 demoCodec demoBatch).codes = some (demoCodec []) ∧
    collate 2 3 true demoCodec demoBatch =
      Except.ok (mkBatch 2 3 demoCodec demoBatch) := by
  refine ⟨rfl, rfl, rfl, ?_, rfl⟩
  rfl

/-- Claim C8: get_mel fails exactly when the loaded audio's sample rate
differs from the configured rate, and on a matching rate returns the
normalized mel together with the waveform. -/
theorem get_mel_sample_rate_check (mel_fn : List ℚ → List (List ℚ))
    (rate : Nat) (mu std : ℚ) (audio : List ℚ) (sr : Nat) :
    (sr ≠ rate → ∃ e, get_mel mel_fn rate mu std audio sr = Except.error e) ∧
    (sr = rate → get_mel mel_fn rate mu std audio sr =
      Except.ok ((mel_fn audio).map (fun row =>
        row.map (fun v => normalize v mu std)), audio)) := by
  constructor
  · intro h
    exact ⟨"AssertionError: sr == self.sample_rate", by simp [get_mel, h]⟩
  · intro h
    simp [get_mel, h]

/-- Claim C8 witness: a mismatching rate errors and a matching rate
returns the normalized mel, at concrete inputs. -/
theorem get_mel_sample_rate_check_witness :
    (∃ e, get_mel (fun _ => [[2]]) 22050 0 1 [0] 16000 = Except.error e) ∧
    get_mel (fun _ => [[2]]) 22050 0 1 [0] 22050 =
      Except.ok (([[(2 : ℚ)]]).map (fun row =>
        row.map (fun v => normalize v 0 1)), [0]) :=
  ⟨(get_mel_sample_rate_check (fun _ => [[2]]) 22050 0 1 [0] 16000).1 (by decide),
   (get_mel_sample_rate_check (fun _ => [[2]]) 22050 0 1 [0] 22050).2 rfl⟩

/-- Claim C9: collating the same list of samples twice (the codec a fixed
deterministic function) yields identical results, and in particular every
tensor and length field of the two output batches agrees. -/
theorem collate_deterministic (factor : Nat) (n_spks : Int) (gc : Bool)
    (codec : List (List ℚ) → List (List Int)) (b1 b2 : List Datapoint)
    (h : b1 = b2) :
    collate factor n_spks gc codec b1 = collate factor n_spks gc codec b2 ∧
    ∀ o1 o2, collate factor n_spks gc codec b1 = Except.ok o1 →
      collate factor n_spks gc codec b2 = Except.ok o2 →
      o1.x = o2.x ∧ o1.x_lengths = o2.x_lengths ∧ o1.y = o2.y ∧
      o1.y_lengths = o2.y_lengths ∧ o1.spks = o2.spks ∧ o1.wav = o2.wav ∧
      o1.wav_lengths = o2.wav_lengths ∧ o1.codes = o2.codes ∧
      o1.codes_lengths = o2.codes_lengths ∧
      o1.prompt_spec = o2.prompt_spec ∧
      o1.prompt_lengths = o2.prompt_lengths ∧
      o1.prompt_codes = o2.prompt_codes ∧
      o1.prompt_codes_lengths = o2.prompt_codes_lengths := by
  subst h
  refine ⟨rfl, ?_⟩
  intro o1 o2 h1 h2
  rw [h1] at h2
  injection h2 with h3
  subst h3
  exact ⟨rfl, rfl, rfl, rfl, rfl, rfl, rfl, rfl, rfl, rfl, rfl, rfl, rfl⟩

/-- Claim C9 witness: the two collations of the demonstration batch agree. -/
theorem collate_deterministic_witness :
    collate 2 1 true demoCodec demoBatch =
      collate 2 1 true demoCodec demoBatch :=
  (collate_deterministic 2 1 true demoCodec demoBatch demoBatch rfl).1

/-- Claim C2: for every item of a successfully collated batch (whose mel
rows all share the item's time dimension, as a tensor's must), the
recorded mel length is the item's original time dimension, the collated
row restricted to that length is exactly the item's unpadded mel, and
every entry beyond that length is zero. -/
theorem collate_mel_copy_exact (factor : Nat) (n_spks : Int)
    (codec : List (List ℚ) → List (List Int)) (batch : List Datapoint)
    (b : Batch) (i : Nat) (hf : 0 < factor) (hi : i < batch.length)
    (hwf : ∀ row ∈ (batch.getD i default).y,
      row.length = melTime (batch.getD i default).y)
    (hok : collate factor n_spks true codec batch = Except.ok b) :
    b.y_lengths.getD i 0 = melTime (batch.getD i default).y ∧
    (b.y.getD i []).map
        (fun row => row.take (melTime (batch.getD i default).y)) =
      (batch.getD i default).y ∧
    ∀ row ∈ b.y.getD i [], ∀ j, melTime (batch.getD i default).y ≤ j →
      row.getD j 0 = 0 := by
  obtain rfl := collate_ok factor n_spks codec batch b hok
  have hmem : batch.getD i default ∈ batch := getD_mem_of_lt default batch i hi
  have hL : melTime (batch.getD i default).y ≤ ymaxOf factor batch :=
    melTime_le_ymax factor batch _ hf hmem
  have hyi : (mkBatch factor n_spks codec batch).y.getD i [] =
      (batch.getD i default).y.map (padTo (ymaxOf factor batch)) := by
    rw [mkBatch_y]
    exact getD_map_lt _ [] default batch i hi
  refine ⟨?_, ?_, ?_⟩
  · rw [mkBatch_y_lengths]
    exact getD_map_lt _ 0 default batch i hi
  · rw [hyi, List.map_map]
    apply map_eq_self_of_mem
    intro r hr
    have hrl := hwf r hr
    show (padTo (ymaxOf factor batch) r).take
      (melTime (batch.getD i default).y) = r
    rw [← hrl]
    exact padTo_take_self _ r (by omega)
  · intro row hrow j hj
    rw [hyi] at hrow
    rcases List.mem_map.mp hrow with ⟨r, hr, rfl⟩
    exact padTo_getD_zero _ r j (by rw [hwf r hr]; omega)

/-- Claim C2 witness: the recorded mel length of the demonstration batch's
single item is its original time dimension. -/
theorem collate_mel_copy_exact_witness :
    (mkBatch 2 1 demoCodec demoBatch).y_lengths.getD 0 0 =
      melTime (demoBatch.getD 0 default).y :=
  (collate_mel_copy_exact 2 1 demoCodec demoBatch
    (mkBatch 2 1 demoCodec demoBatch) 0 (by decide) (by decide)
    (by decide) rfl).1

/-- Claim C4: for every item of a successfully collated batch, a waveform
longer than the padded width is truncated to its first wav_max_length
samples (from the end, never the start), and a shorter waveform's row is
zero beyond the item's true length. -/
theorem collate_wav_truncation (factor : Nat) (n_spks : Int)
    (codec : List (List ℚ) → List (List Int)) (batch : List Datapoint)
    (b : Batch) (i : Nat) (hi : i < batch.length)
    (hok : collate factor n_spks true codec batch = Except.ok b) :
    (wmaxOf factor batch < (batch.getD i default).wav.length →
      b.wav.getD i [] =
        (batch.getD i default).wav.take (wmaxOf factor batch)) ∧
    ((batch.getD i default).wav.length ≤ wmaxOf factor batch →
      ∀ j, (batch.getD i default).wav.length ≤ j →
        (b.wav.getD i []).getD j 0 = 0) := by
  obtain rfl := collate_ok factor n_spks codec batch b hok
  have hwi : (mkBatch factor n_spks codec batch).wav.getD i [] =
      padTo (wmaxOf factor batch)
        (truncWav (wmaxOf factor batch) (batch.getD i default).wav) := by
    rw [mkBatch_wav]
    exact getD_map_lt _ [] default batch i hi
  constructor
  · intro hlong
    rw [hwi]
    rw [show truncWav (wmaxOf factor batch) (batch.getD i default).wav =
        (batch.getD i default).wav.take (wmaxOf factor batch) from by
      unfold truncWav
      rw [if_pos hlong]]
    apply padTo_eq_self
    rw [List.length_take]
    omega
  · intro hshort j hj
    rw [hwi]
    rw [show truncWav (wmaxOf factor batch) (batch.getD i default).wav =
        (batch.getD i default).wav from by
      unfold truncWav
      rw [if_neg (by omega)]]
    exact padTo_getD_zero _ _ j hj

/-- A datapoint whose waveform is longer than the padded width its batch
produces (600 samples against wav_max_length 512). -/
def longWavItem : Datapoint :=
  { x := [1], y := [[0]], spk := none, wav := List.replicate 600 1 }

/-- A singleton batch whose waveform overflows the padded width. -/
def demoBatchLong : List Datapoint := [longWavItem]

/-- Claim C4 witness: the overlong demonstration waveform's collated row is
its first wav_max_length samples. -/
theorem collate_wav_truncation_witness :
    (mkBatch 2 1 demoCodec demoBatchLong).wav.getD 0 [] =
      (demoBatchLong.getD 0 default).wav.take (wmaxOf 2 demoBatchLong) :=
  (collate_wav_truncation 2 1 demoCodec demoBatchLong
    (mkBatch 2 1 demoCodec demoBatchLong) 0 (by decide) rfl).1 (by
      rw [show (demoBatchLong.getD 0 default).wav = List.replicate 600 1 from rfl,
        List.length_replicate]
      decide)

/-- The demonstration manifest: one real record, then an empty line, the
file ending with a newline. -/
def demoManifest : List Char := ['a', '|', 'b', '\x0a', '\x0a']

/-- Claim C7 counterexample: the demonstration manifest has exactly one
non-empty line, yet parse_filelist produces two records; the empty line
yields the single-empty-field record, so empty lines do NOT yield no
record as claimed. -/
theorem parse_filelist_empty_line_counterexample :
    ((pyLines demoManifest).filter (fun l => !(pyStrip l).isEmpty)).length = 1 ∧
    (parse_filelist demoManifest '|').length = 2 ∧
    (parse_filelist demoManifest '|').getD 1 [] = [[]] := by
  refine ⟨?_, ?_, ?_⟩ <;> decide

/-- Claim C7 (amended): parsing produces one record per line of the
manifest, empty lines included (an empty line yields a single-empty-field
record), by splitting the stripped line on the separator; and the dataset
split's length (over its shuffled record list, any permutation of the
parse) equals the number of parsed records. -/
theorem parse_filelist_records (content : List Char) (sep : Char)
    (shuffled : List (List (List Char)))
    (hperm : shuffled.Perm (parse_filelist content sep)) :
    (parse_filelist content sep).length = (pyLines content).length ∧
    TextMelDataset_len shuffled = (parse_filelist content sep).length := by
  constructor
  · simp [parse_filelist]
  · exact hperm.length_eq

/-- Claim C7 witness: the dataset length over the (identity-shuffled)
demonstration manifest records equals the number of parsed records. -/
theorem parse_filelist_records_witness :
    TextMelDataset_len (parse_filelist demoManifest '|') =
      (parse_filelist demoManifest '|').length :=
  (parse_filelist_records demoManifest '|' (parse_filelist demoManifest '|')
    (List.Perm.refl _)).2

/-- Claim C10: for every item of a successfully collated batch, the
recorded waveform length is the post-truncation length
min(original length, y_max_length * 256), never exceeding the waveform
tensor's width, and codes_lengths is computed as 1 + length // 320 from
these truncated lengths. -/
theorem collate_wav_lengths_truncated (factor : Nat) (n_spks : Int)
    (codec : List (List ℚ) → List (List Int)) (batch : List Datapoint)
    (b : Batch) (i : Nat) (hi : i < batch.length)
    (hok : collate factor n_spks true codec batch = Except.ok b) :
    b.wav_lengths.getD i 0 =
      min (batch.getD i default).wav.length (ymaxOf factor batch * 256) ∧
    b.wav_lengths.getD i 0 ≤ (b.wav.getD i []).length ∧
    b.codes_lengths = some (b.wav_lengths.map (fun l => 1 + l / 320)) := by
  obtain rfl := collate_ok factor n_spks codec batch b hok
  have h1 : (mkBatch factor n_spks codec batch).wav_lengths.getD i 0 =
      (truncWav (wmaxOf factor batch) (batch.getD i default).wav).length := by
    rw [mkBatch_wav_lengths]
    exact getD_map_lt _ 0 default batch i hi
  refine ⟨?_, ?_, rfl⟩
  · rw [h1, truncWav_length]
    rfl
  · rw [h1, truncWav_length]
    have h2 : (mkBatch factor n_spks codec batch).wav.getD i [] =
        padTo (wmaxOf factor batch)
          (truncWav (wmaxOf factor batch) (batch.getD i default).wav) := by
      rw [mkBatch_wav]
      exact getD_map_lt _ [] default batch i hi
    rw [h2, padTo_length]
    omega

/-- Claim C10 witness: the overlong demonstration waveform's recorded
length is the truncated minimum. -/
theorem collate_wav_lengths_truncated_witness :
    (mkBatch 2 1 demoCodec demoBatchLong).wav_lengths.getD 0 0 =
      min (demoBatchLong.getD 0 default).wav.length
        (ymaxOf 2 demoBatchLong * 256) :=
  (collate_wav_lengths_truncated 2 1 demoCodec demoBatchLong
    (mkBatch 2 1 demoCodec demoBatchLong) 0 (by decide) rfl).1

end PFlow
